import Mathlib

/-!
Verification of the DigitalForensicsSuite core against its specification.

The Python source is shallowly embedded:
* `src/acquisition.py` — `calculate_hash_from_file` performs file I/O and
  calls `hashlib`, so it is abstracted as an oracle `hash : String → String →
  Option String` (algorithm, path ↦ hex digest, `none` when the `except`
  branch fires and the function returns Python `None`).  `verify_integrity`
  and `perform_forensic_imaging` are embedded over such oracles, byte for
  byte faithful to their control flow.
* `src/analysis.py` — `perform_file_carving` is embedded with bytes as
  `Nat`, Python `bytes.find` as `pyFind`, and the possibility that writing a
  carved output file raises an exception as a writer oracle `w : Nat → Bool`
  (indexed by the value of `carved_count` at the write).  The scan loop is
  given fuel; `none` models divergence of the Python loop (possible only for
  an empty header pattern).
-/

namespace Forensics

/-- `HASH_ALGORITHM = 'sha256'` from `src/acquisition.py`. -/
def HASH_ALGORITHM : String := "sha256"

/-- Python truthiness test `not x` applied to the result of
`calculate_hash_from_file`: `None` and the empty string are falsy. -/
def pyFalsy : Option String → Bool
  | none => true
  | some s => s.isEmpty

/-- `verify_integrity(original_source, image_file, log_path)` from
`src/acquisition.py`, parameterised by the hashing oracle standing for
`calculate_hash_from_file`.  It hashes the image, hashes the source (both
with `HASH_ALGORITHM`), returns `False` if either hash is falsy, and
otherwise returns the result of the equality comparison. -/
def verify_integrity (hash : String → String → Option String)
    (original_source image_file : String) : Bool :=
  let image_hash := hash HASH_ALGORITHM image_file
  let source_hash := hash HASH_ALGORITHM original_source
  if pyFalsy image_hash || pyFalsy source_hash then
    false
  else if source_hash == image_hash then
    true
  else
    false

/-- Outcome of the `subprocess.Popen` call in `perform_forensic_imaging`:
either `FileNotFoundError` is raised (the `dcfldd` executable is missing),
or the child process runs and exits with a return code. -/
inductive SpawnOutcome where
  | notFound : SpawnOutcome
  | proc (returncode : Int) (stderrText : String) : SpawnOutcome
deriving DecidableEq

/-- `perform_forensic_imaging(source_device, output_path, log_path)` from
`src/acquisition.py`, parameterised by the spawn outcome.  Returns the pair
the Python function returns: `(False, None)` on `FileNotFoundError`,
`(False, None)` when the child exits non-zero, and `(True, log_path)` on a
zero exit code. -/
def perform_forensic_imaging (spawn : SpawnOutcome) (log_path : String) :
    Bool × Option String :=
  match spawn with
  | .notFound => (false, none)
  | .proc returncode _ =>
      if returncode != 0 then (false, none)
      else (true, some log_path)

/-- A hashing oracle whose source-side hash computation fails
(`calculate_hash_from_file` returns `None` on the original source). -/
def hashFailOnSource : String → String → Option String :=
  fun _ p => if p = "src" then none else some "d1"

/-- A hashing oracle producing two successful but different digests. -/
def hashMismatch : String → String → Option String :=
  fun _ p => if p = "src" then some "aaa" else some "bbb"

/-! ## File carving (`src/analysis.py`) -/

/-- Does the pattern `pat` occur in `buf` starting exactly at index `i`
(with the whole pattern inside the buffer)?  This is the matching test
underlying Python `bytes.find`. -/
def sliceMatch (buf pat : List Nat) (i : Nat) : Bool :=
  (buf.drop i).take pat.length == pat

/-- Python `buffer.find(pat, start)`: the least index `i ≥ start` at which
`pat` occurs wholly inside `buf`, or `none` where Python returns `-1`. -/
def pyFind (buf pat : List Nat) (start : Nat) : Option Nat :=
  (List.range (buf.length + 1)).find? fun i => decide (start ≤ i) && sliceMatch buf pat i

/-- One entry of the `FILE_SIGNATURES` registry: header pattern, footer
pattern and output file extension. -/
structure Signature where
  header : List Nat
  footer : List Nat
  ext : String
deriving DecidableEq

/-- `FILE_SIGNATURES` from `src/analysis.py`, in Python dict insertion
order: JPEG, PDF, GIF. -/
def FILE_SIGNATURES : List (String × Signature) :=
  [("JPEG", ⟨[0xFF, 0xD8, 0xFF, 0xE0], [0xFF, 0xD9], "jpg"⟩),
   ("PDF",  ⟨[0x25, 0x50, 0x44, 0x46], [0x25, 0x25, 0x45, 0x4F, 0x46], "pdf"⟩),
   ("GIF",  ⟨[0x47, 0x49, 0x46, 0x38, 0x39, 0x61], [0x00, 0x3B], "gif"⟩)]

/-- One carved output file: the signature name and extension it was carved
for, the value of `carved_count` when it was written (its sequence number),
and the carved span `[headerPos, stop)` of the buffer, where
`stop = footer_pos + len(footer)`. -/
structure Artifact where
  fileType : String
  seq : Nat
  headerPos : Nat
  stop : Nat
  ext : String
deriving DecidableEq

/-- The bytes written for an artifact: `buffer[header_pos : footer_pos +
len(footer)]`. -/
def artifactData (buf : List Nat) (a : Artifact) : List Nat :=
  (buf.drop a.headerPos).take (a.stop - a.headerPos)

/-- Result of the carving loop over one signature: either the loop finished
normally (`ok`, carrying the updated `carved_count` and the list of files
written so far) or a write raised an exception (`failed`, carrying the
files already written). -/
inductive CarveOut where
  | ok (counter : Nat) (written : List Artifact) : CarveOut
  | failed (written : List Artifact) : CarveOut
deriving DecidableEq

/-- The `while True` scan loop of `perform_file_carving` for one signature,
fuelled.  `w` tells whether the write of the artifact with a given sequence
number succeeds; a failing write raises, aborting with the files written so
far.  `none` models divergence of the Python loop (which fuel exhaustion
represents; it can only happen for an empty header pattern). -/
def carveLoop (buf header footer : List Nat) (ft ext : String) (w : Nat → Bool) :
    Nat → Nat → Nat → List Artifact → Option CarveOut
  | 0, _, _, _ => none
  | fuel + 1, offset, c, acc =>
    match pyFind buf header offset with
    | none => some (.ok c acc)
    | some header_pos =>
      match pyFind buf footer (header_pos + header.length) with
      | none => carveLoop buf header footer ft ext w fuel (header_pos + header.length) c acc
      | some footer_pos =>
        let a : Artifact := ⟨ft, c, header_pos, footer_pos + footer.length, ext⟩
        if w c then
          carveLoop buf header footer ft ext w fuel (footer_pos + footer.length) (c + 1)
            (acc ++ [a])
        else
          some (.failed acc)

/-- The `for file_type, sigs in signatures.items()` loop of
`perform_file_carving`: scan each signature in registry order, threading
`carved_count` and the written files; a raised write exception ends the
whole loop. -/
def carveAll (buf : List Nat) (w : Nat → Bool) :
    List (String × Signature) → Nat → List Artifact → Option CarveOut
  | [], c, acc => some (.ok c acc)
  | (name, sig) :: rest, c, acc =>
    match carveLoop buf sig.header sig.footer name sig.ext w (buf.length + 1) 0 c acc with
    | none => none
    | some (.failed acc') => some (.failed acc')
    | some (.ok c' acc') => carveAll buf w rest c' acc'

/-- `perform_file_carving(image_path, output_directory, signatures)` from
`src/analysis.py`, over an already-read buffer: returns the value the
Python function returns together with the trace of files written.  On
normal completion it returns `carved_count`; when a write raises, the
function-level `except` handler returns `0`, and the files written before
the exception remain on disk.  `none` models divergence of the scan loop. -/
def perform_file_carving (sigs : List (String × Signature)) (buf : List Nat)
    (w : Nat → Bool) : Option (Nat × List Artifact) :=
  match carveAll buf w sigs 0 [] with
  | none => none
  | some (.ok c acc) => some (c, acc)
  | some (.failed acc) => some (0, acc)

/-- The value `perform_file_carving` returns to its caller (only the count). -/
def carvingReturn (sigs : List (String × Signature)) (buf : List Nat)
    (w : Nat → Bool) : Option Nat :=
  (perform_file_carving sigs buf w).map Prod.fst

/-- The files a carving run writes (the side-effect trace), in write order. -/
def carvedFiles (sigs : List (String × Signature)) (buf : List Nat)
    (w : Nat → Bool) : List Artifact :=
  ((perform_file_carving sigs buf w).map Prod.snd).getD []

/-- A writer oracle under which every output-file write succeeds. -/
def alwaysOk : Nat → Bool := fun _ => true

/-- Decimal digit characters of a natural number, most significant first,
as Python's `f"{carved_count}"` renders the sequence number. -/
def natChars (n : Nat) : List Char :=
  if h : n < 10 then [Char.ofNat (48 + n)]
  else natChars (n / 10) ++ [Char.ofNat (48 + n % 10)]
decreasing_by exact Nat.div_lt_self (by omega) (by omega)

/-- The output file name `f"carved_{file_type}_{carved_count}.{ext}"`
(relative to the output directory) of an artifact. -/
def outputName (a : Artifact) : String :=
  "carved_" ++ a.fileType ++ "_" ++ String.mk (natChars a.seq) ++ "." ++ a.ext

/-- Reads a decimal digit string back into the number it denotes (the
specification-side inverse of `natChars`). -/
def decodeDigits (cs : List Char) : Nat :=
  cs.foldl (fun acc ch => 10 * acc + (ch.toNat - 48)) 0

/-- Scenario A buffer: JPEG header, the seven ASCII bytes of `payload`,
JPEG footer — 13 bytes. -/
def bufA : List Nat :=
  [0xFF, 0xD8, 0xFF, 0xE0, 112, 97, 121, 108, 111, 97, 100, 0xFF, 0xD9]

/-- Scenario B buffer: JPEG header followed by `payload`, no footer. -/
def bufB : List Nat :=
  [0xFF, 0xD8, 0xFF, 0xE0, 112, 97, 121, 108, 111, 97, 100]

/-- Scenario C buffer: two complete JPEG header/footer pairs back-to-back. -/
def bufC : List Nat := bufA ++ bufA

/-- A buffer holding one complete JPEG span followed by one complete PDF
span (`%PDF`, one byte `t`, `%%EOF`). -/
def bufJP : List Nat :=
  bufA ++ [0x25, 0x50, 0x44, 0x46] ++ [116] ++ [0x25, 0x25, 0x45, 0x4F, 0x46]

/-! ## Specification-side descriptions of the scan loop

`scanSpans` is the pure span-level reading of `carveLoop`: the list of
spans `(headerPos, footerPos + len(footer))` the loop delimits, with no
write effects.  `numberFrom` assigns the consecutive `carved_count` values,
`firstFail` locates the first failing write, and `idealFrom` composes the
per-signature span lists in registry order.  Each is related to the
embedded code by a proved lemma below. -/

/-- The spans the scan loop of one signature delimits, starting at a given
cursor, with the given fuel (`none` = the Python loop diverges). -/
def scanSpans (buf header footer : List Nat) : Nat → Nat → Option (List (Nat × Nat))
  | 0, _ => none
  | fuel + 1, offset =>
    match pyFind buf header offset with
    | none => some []
    | some header_pos =>
      match pyFind buf footer (header_pos + header.length) with
      | none => scanSpans buf header footer fuel (header_pos + header.length)
      | some footer_pos =>
        (scanSpans buf header footer fuel (footer_pos + footer.length)).map
          (fun l => (header_pos, footer_pos + footer.length) :: l)

/-- Turn a span list into artifacts numbered consecutively from `c`. -/
def numberFrom (ft ext : String) : Nat → List (Nat × Nat) → List Artifact
  | _, [] => []
  | c, (a, b) :: l => ⟨ft, c, a, b, ext⟩ :: numberFrom ft ext (c + 1) l

/-- The first index `k < n` (counting from sequence number `c`) at which
the writer oracle fails, if any. -/
def firstFail (w : Nat → Bool) : Nat → Nat → Option Nat
  | _, 0 => none
  | c, n + 1 => if w c then (firstFail w (c + 1) n).map (· + 1) else some 0

/-- The artifact list of a fault-free carving run: per-signature span lists
in registry order, numbered by the shared counter starting from `c`. -/
def idealFrom (buf : List Nat) : List (String × Signature) → Nat → Option (List Artifact)
  | [], _ => some []
  | (name, sig) :: rest, c =>
    match scanSpans buf sig.header sig.footer (buf.length + 1) 0 with
    | none => none
    | some sl =>
      (idealFrom buf rest (c + sl.length)).map (fun A => numberFrom name sig.ext c sl ++ A)

/-! ## Theorems -/

/-! ### Properties of `pyFind` and the scan loop -/

/-- What a successful `pyFind` guarantees: the hit is at or after `start`,
the pattern lies wholly inside the buffer, and the bytes there are the
pattern. -/
theorem pyFind_some {buf pat : List Nat} {start i : Nat}
    (h : pyFind buf pat start = some i) :
    start ≤ i ∧ i + pat.length ≤ buf.length ∧ (buf.drop i).take pat.length = pat := by
  have hp := List.find?_some h
  have hm := List.mem_of_find?_eq_some h
  have hi : i < buf.length + 1 := List.mem_range.mp hm
  rw [Bool.and_eq_true, decide_eq_true_iff] at hp
  obtain ⟨h1, h2⟩ := hp
  have h3 : (buf.drop i).take pat.length = pat := by
    simpa [sliceMatch] using h2
  have h4 : ((buf.drop i).take pat.length).length = pat.length := by rw [h3]
  rw [List.length_take, List.length_drop] at h4
  exact ⟨h1, by omega, h3⟩

/-- The length of a numbered span list. -/
theorem numberFrom_length (ft ext : String) :
    ∀ (c : Nat) (l : List (Nat × Nat)), (numberFrom ft ext c l).length = l.length := by
  intro c l
  induction l generalizing c with
  | nil => rfl
  | cons p l ih => cases p; simp [numberFrom, ih]

/-- Membership in a numbered span list determines the artifact's fields. -/
theorem numberFrom_mem {ft ext : String} :
    ∀ {c : Nat} {l : List (Nat × Nat)} {a : Artifact}, a ∈ numberFrom ft ext c l →
      a.fileType = ft ∧ a.ext = ext ∧ (a.headerPos, a.stop) ∈ l ∧
        c ≤ a.seq ∧ a.seq < c + l.length := by
  intro c l
  induction l generalizing c with
  | nil => intro a ha; cases ha
  | cons p l ih =>
    obtain ⟨x, y⟩ := p
    intro a ha
    rw [numberFrom, List.mem_cons] at ha
    rcases ha with rfl | ha
    · exact ⟨rfl, rfl, List.mem_cons_self _ _, Nat.le_refl _,
        by simp only [List.length_cons]; omega⟩
    · obtain ⟨h1, h2, h3, h4, h5⟩ := ih ha
      exact ⟨h1, h2, List.mem_cons_of_mem _ h3, by omega,
        by simp only [List.length_cons]; omega⟩

/-- The sequence numbers of a numbered span list are consecutive. -/
theorem numberFrom_map_seq (ft ext : String) :
    ∀ (c : Nat) (l : List (Nat × Nat)),
      (numberFrom ft ext c l).map Artifact.seq = List.range' c l.length := by
  intro c l
  induction l generalizing c with
  | nil => rfl
  | cons p l ih => cases p; simp [numberFrom, List.range'_succ, ih]

/-- Under the all-writes-succeed oracle there is no failing write. -/
theorem firstFail_alwaysOk : ∀ (c n : Nat), firstFail alwaysOk c n = none := by
  intro c n
  induction n generalizing c with
  | zero => rfl
  | succ n ih => simp [firstFail, alwaysOk, ih]

/-- A reported first failure lies inside the range. -/
theorem firstFail_lt {w : Nat → Bool} :
    ∀ {c n k : Nat}, firstFail w c n = some k → k < n := by
  intro c n
  induction n generalizing c with
  | zero => intro k h; cases h
  | succ n ih =>
    intro k h
    rw [firstFail] at h
    by_cases hw : w c = true
    · rw [if_pos hw] at h
      cases hf : firstFail w (c + 1) n with
      | none => rw [hf] at h; cases h
      | some j =>
        rw [hf] at h
        obtain rfl : j + 1 = k := by simpa using h
        exact Nat.succ_lt_succ (ih hf)
    · rw [if_neg hw] at h
      obtain rfl : (0 : Nat) = k := by simpa using h
      exact Nat.succ_pos n

/-- Locating the first failing write in a concatenation of two ranges. -/
theorem firstFail_append (w : Nat → Bool) :
    ∀ (m : Nat) {c : Nat} (n : Nat),
      firstFail w c (m + n) =
        match firstFail w c m with
        | some k => some k
        | none => (firstFail w (c + m) n).map (· + m) := by
  intro m
  induction m with
  | zero =>
    intro c n
    simp only [firstFail, Nat.zero_add, Nat.add_zero]
    cases firstFail w c n with
    | none => rfl
    | some k => simp
  | succ m ih =>
    intro c n
    have hms : m + 1 + n = (m + n) + 1 := by omega
    rw [hms, firstFail, firstFail]
    by_cases hw : w c = true
    · rw [if_pos hw, if_pos hw, ih n]
      cases hf : firstFail w (c + 1) m with
      | some k => simp [hf]
      | none =>
        have hc : c + 1 + m = c + (m + 1) := by omega
        have hfun : ((fun x => x + 1) ∘ fun x => x + m) = fun x => x + (m + 1) := by
          funext x
          simp only [Function.comp_apply]
          omega
        simp [hf, Option.map_map, hfun, hc]
    · rw [if_neg hw, if_neg hw]

/-- The first writing failure, if any, strikes where the oracle first says
`false`. -/
theorem firstFail_eq_some (w : Nat → Bool) :
    ∀ (k : Nat) {c n : Nat}, k < n → (∀ i, i < k → w (c + i) = true) →
      w (c + k) = false → firstFail w c n = some k := by
  intro k
  induction k with
  | zero =>
    intro c n hn hlt hw
    obtain ⟨m, rfl⟩ := Nat.exists_eq_add_of_lt hn
    rw [firstFail]
    simp only [Nat.add_zero] at hw
    rw [if_neg (by simp [hw])]
  | succ k ih =>
    intro c n hn hlt hw
    obtain ⟨m, rfl⟩ := Nat.exists_eq_add_of_lt hn
    rw [firstFail]
    rw [if_pos (by simpa using hlt 0 (Nat.succ_pos k))]
    have h1 : ∀ i, i < k → w (c + 1 + i) = true := by
      intro i hi
      have := hlt (i + 1) (by omega)
      simpa [Nat.add_assoc, Nat.add_comm 1 i] using this
    have h2 : w (c + 1 + k) = false := by
      have : c + 1 + k = c + (k + 1) := by omega
      rw [this]; exact hw
    rw [ih (by omega) h1 h2]
    rfl

/-- The embedded carving loop, described: on a scan that delimits the span
list `sl`, the loop writes the consecutively-numbered artifacts of `sl`
until the first failing write; with no failing write it ends normally with
the counter advanced by one per artifact, and a failing write aborts it
with exactly the artifacts written before the failure. -/
theorem carveLoop_eq_scanSpans (buf h f : List Nat) (ft ext : String) (w : Nat → Bool) :
    ∀ (fuel : Nat) {offset c : Nat} {acc : List Artifact} {sl : List (Nat × Nat)},
      scanSpans buf h f fuel offset = some sl →
      carveLoop buf h f ft ext w fuel offset c acc =
        some (match firstFail w c sl.length with
              | none => .ok (c + sl.length) (acc ++ numberFrom ft ext c sl)
              | some k => .failed (acc ++ numberFrom ft ext c (sl.take k))) := by
  intro fuel
  induction fuel with
  | zero => intro offset c acc sl hs; cases hs
  | succ n ih =>
    intro offset c acc sl hs
    rw [scanSpans] at hs
    rw [carveLoop]
    cases hh : pyFind buf h offset with
    | none =>
      simp only [hh] at hs ⊢
      obtain rfl : [] = sl := by simpa using hs
      simp [firstFail, numberFrom]
    | some hp =>
      simp only [hh] at hs ⊢
      cases hf : pyFind buf f (hp + h.length) with
      | none =>
        simp only [hf] at hs ⊢
        exact ih hs
      | some fp =>
        simp only [hf] at hs ⊢
        cases hrec : scanSpans buf h f n (fp + f.length) with
        | none => rw [hrec] at hs; cases hs
        | some sl' =>
          rw [hrec] at hs
          obtain rfl : (hp, fp + f.length) :: sl' = sl := by simpa using hs
          by_cases hw : w c = true
          · rw [if_pos hw, ih hrec]
            simp only [List.length_cons, firstFail, if_pos hw]
            cases hff : firstFail w (c + 1) sl'.length with
            | none =>
              simp only [hff, Option.map_none]
              congr 2
              · omega
              · simp [numberFrom, List.append_assoc]
            | some k =>
              simp only [hff, Option.map_some]
              congr 2
              simp [numberFrom, List.take_succ_cons, List.append_assoc]
          · rw [if_neg hw]
            have hwf : w c = false := by simpa using hw
            simp [firstFail, hwf, numberFrom]

/-- Numbering commutes with taking a prefix of the span list. -/
theorem numberFrom_take (ft ext : String) :
    ∀ (k c : Nat) (l : List (Nat × Nat)),
      numberFrom ft ext c (l.take k) = (numberFrom ft ext c l).take k := by
  intro k
  induction k with
  | zero => intro c l; simp [numberFrom]
  | succ k ih =>
    intro c l
    cases l with
    | nil => simp [numberFrom]
    | cons p l =>
      obtain ⟨x, y⟩ := p
      simp only [List.take_succ_cons, numberFrom]
      rw [ih]

/-- The registry loop, described: given the ideal artifact list of a
fault-free run, the loop writes exactly the prefix of that list up to the
first failing write (all of it when no write fails). -/
theorem carveAll_eq_idealFrom (buf : List Nat) (w : Nat → Bool) :
    ∀ (sigs : List (String × Signature)) {c : Nat} {acc : List Artifact}
      {A : List Artifact}, idealFrom buf sigs c = some A →
      carveAll buf w sigs c acc =
        some (match firstFail w c A.length with
              | none => .ok (c + A.length) (acc ++ A)
              | some k => .failed (acc ++ A.take k)) := by
  intro sigs
  induction sigs with
  | nil =>
    intro c acc A hA
    obtain rfl : [] = A := by simpa [idealFrom] using hA
    simp [carveAll, firstFail]
  | cons e rest ih =>
    obtain ⟨name, sig⟩ := e
    intro c acc A hA
    rw [idealFrom] at hA
    cases hsc : scanSpans buf sig.header sig.footer (buf.length + 1) 0 with
    | none => rw [hsc] at hA; cases hA
    | some sl =>
      simp only [hsc] at hA
      cases hrest : idealFrom buf rest (c + sl.length) with
      | none => rw [hrest] at hA; simp at hA
      | some A' =>
        simp only [hrest] at hA
        obtain rfl : numberFrom name sig.ext c sl ++ A' = A := by simpa using hA
        rw [carveAll, carveLoop_eq_scanSpans buf sig.header sig.footer name sig.ext w _ hsc]
        have hlen : (numberFrom name sig.ext c sl ++ A').length = sl.length + A'.length := by
          simp [numberFrom_length]
        rw [hlen, firstFail_append w sl.length A'.length]
        cases hff : firstFail w c sl.length with
        | some k =>
          have hk : k < sl.length := firstFail_lt hff
          have htake : (numberFrom name sig.ext c sl ++ A').take k =
              (numberFrom name sig.ext c sl).take k :=
            List.take_append_of_le_length (by rw [numberFrom_length]; omega)
          simp [hff, htake, numberFrom_take]
        | none =>
          simp only [hff]
          rw [ih hrest]
          cases hff2 : firstFail w (c + sl.length) A'.length with
          | none =>
            simp only [hff2, Option.map_none]
            congr 2
            · omega
            · simp [List.append_assoc]
          | some k =>
            simp only [hff2, Option.map_some]
            have htk : (numberFrom name sig.ext c sl ++ A').take (k + sl.length) =
                numberFrom name sig.ext c sl ++ A'.take k := by
              have hl : sl.length = (numberFrom name sig.ext c sl).length :=
                (numberFrom_length _ _ _ _).symm
              rw [Nat.add_comm k sl.length, hl, List.take_append]
            simp [htk, List.append_assoc]

/-- A diverging scan makes the (all-writes-succeed) loop diverge too. -/
theorem carveLoop_none_of_scanSpans_none (buf h f : List Nat) (ft ext : String) :
    ∀ (fuel : Nat) {offset c : Nat} {acc : List Artifact},
      scanSpans buf h f fuel offset = none →
      carveLoop buf h f ft ext alwaysOk fuel offset c acc = none := by
  intro fuel
  induction fuel with
  | zero => intro offset c acc _; rfl
  | succ n ih =>
    intro offset c acc hs
    rw [scanSpans] at hs
    rw [carveLoop]
    cases hh : pyFind buf h offset with
    | none => rw [hh] at hs; cases hs
    | some hp =>
      simp only [hh] at hs ⊢
      cases hf : pyFind buf f (hp + h.length) with
      | none =>
        simp only [hf] at hs ⊢
        exact ih hs
      | some fp =>
        simp only [hf] at hs ⊢
        cases hrec : scanSpans buf h f n (fp + f.length) with
        | some sl => rw [hrec] at hs; cases hs
        | none =>
          have hw : alwaysOk c = true := rfl
          rw [if_pos hw]
          exact ih hrec

/-- A diverging per-signature scan makes the whole fault-free run diverge. -/
theorem carveAll_none_of_idealFrom_none (buf : List Nat) :
    ∀ (sigs : List (String × Signature)) {c : Nat} {acc : List Artifact},
      idealFrom buf sigs c = none →
      carveAll buf alwaysOk sigs c acc = none := by
  intro sigs
  induction sigs with
  | nil => intro c acc hA; cases hA
  | cons e rest ih =>
    obtain ⟨name, sig⟩ := e
    intro c acc hA
    rw [idealFrom] at hA
    rw [carveAll]
    cases hsc : scanSpans buf sig.header sig.footer (buf.length + 1) 0 with
    | none =>
      rw [carveLoop_none_of_scanSpans_none buf sig.header sig.footer name sig.ext _ hsc]
    | some sl =>
      simp only [hsc] at hA
      have hrest : idealFrom buf rest (c + sl.length) = none := by
        cases hr : idealFrom buf rest (c + sl.length) with
        | none => rfl
        | some A' => rw [hr] at hA; simp at hA
      rw [carveLoop_eq_scanSpans buf sig.header sig.footer name sig.ext alwaysOk _ hsc]
      simp only [firstFail_alwaysOk]
      exact ih hrest

/-- Bridge: a fault-free `perform_file_carving` run returns the length of
the ideal artifact list as its count, and writes exactly that list. -/
theorem perform_file_carving_alwaysOk (sigs : List (String × Signature)) (buf : List Nat) :
    perform_file_carving sigs buf alwaysOk =
      (idealFrom buf sigs 0).map (fun A => (A.length, A)) := by
  cases hI : idealFrom buf sigs 0 with
  | none =>
    rw [perform_file_carving, carveAll_none_of_idealFrom_none buf sigs hI]
    rfl
  | some A =>
    rw [perform_file_carving, carveAll_eq_idealFrom buf alwaysOk sigs hI]
    simp [firstFail_alwaysOk]

/-- Every span the scan delimits starts at or after the cursor, begins with
the header pattern, ends with the footer pattern, fits in the buffer, and
successive spans do not overlap. -/
theorem scanSpans_props (buf h f : List Nat) :
    ∀ (fuel : Nat) {offset : Nat} {sl : List (Nat × Nat)},
      scanSpans buf h f fuel offset = some sl →
      (∀ p ∈ sl, offset ≤ p.1 ∧ p.1 + h.length + f.length ≤ p.2 ∧ p.2 ≤ buf.length ∧
        (buf.drop p.1).take h.length = h ∧ (buf.drop (p.2 - f.length)).take f.length = f) ∧
      sl.Pairwise (fun p q => p.2 ≤ q.1) := by
  intro fuel
  induction fuel with
  | zero => intro offset sl hs; cases hs
  | succ n ih =>
    intro offset sl hs
    rw [scanSpans] at hs
    cases hh : pyFind buf h offset with
    | none =>
      rw [hh] at hs
      obtain rfl : [] = sl := by simpa using hs
      exact ⟨fun p hp => absurd hp (List.not_mem_nil p), List.Pairwise.nil⟩
    | some hp =>
      simp only [hh] at hs
      cases hf : pyFind buf f (hp + h.length) with
      | none =>
        simp only [hf] at hs
        obtain ⟨hall, hpw⟩ := ih hs
        obtain ⟨hh1, hh2, _⟩ := pyFind_some hh
        refine ⟨fun p hps => ?_, hpw⟩
        obtain ⟨h1, h2, h3, h4, h5⟩ := hall p hps
        exact ⟨by omega, h2, h3, h4, h5⟩
      | some fp =>
        simp only [hf] at hs
        cases hrec : scanSpans buf h f n (fp + f.length) with
        | none => rw [hrec] at hs; cases hs
        | some sl' =>
          rw [hrec] at hs
          obtain rfl : (hp, fp + f.length) :: sl' = sl := by simpa using hs
          obtain ⟨hh1, hh2, hh3⟩ := pyFind_some hh
          obtain ⟨hf1, hf2, hf3⟩ := pyFind_some hf
          obtain ⟨hall, hpw⟩ := ih hrec
          have hstop : fp + f.length - f.length = fp := by omega
          constructor
          · intro p hps
            rcases List.mem_cons.mp hps with rfl | hps
            · exact ⟨hh1, by omega, hf2, hh3, by rw [hstop]; exact hf3⟩
            · obtain ⟨h1, h2, h3, h4, h5⟩ := hall p hps
              exact ⟨by omega, h2, h3, h4, h5⟩
          · refine List.pairwise_cons.mpr ⟨fun q hq => ?_, hpw⟩
            obtain ⟨h1, _, _, _, _⟩ := hall q hq
            exact h1

/-- Every artifact of the ideal run comes from a registry entry whose
header and footer delimit it inside the buffer. -/
theorem idealFrom_mem (buf : List Nat) :
    ∀ (sigs : List (String × Signature)) {c : Nat} {A : List Artifact},
      idealFrom buf sigs c = some A → ∀ a ∈ A,
      ∃ e ∈ sigs, a.fileType = e.1 ∧ a.ext = e.2.ext ∧
        a.headerPos + e.2.header.length + e.2.footer.length ≤ a.stop ∧
        a.stop ≤ buf.length ∧
        (buf.drop a.headerPos).take e.2.header.length = e.2.header ∧
        (buf.drop (a.stop - e.2.footer.length)).take e.2.footer.length = e.2.footer := by
  intro sigs
  induction sigs with
  | nil =>
    intro c A hA a ha
    obtain rfl : [] = A := by simpa [idealFrom] using hA
    cases ha
  | cons e rest ih =>
    obtain ⟨name, sig⟩ := e
    intro c A hA a ha
    rw [idealFrom] at hA
    cases hsc : scanSpans buf sig.header sig.footer (buf.length + 1) 0 with
    | none => rw [hsc] at hA; cases hA
    | some sl =>
      simp only [hsc] at hA
      cases hrest : idealFrom buf rest (c + sl.length) with
      | none => rw [hrest] at hA; simp at hA
      | some A' =>
        simp only [hrest] at hA
        obtain rfl : numberFrom name sig.ext c sl ++ A' = A := by simpa using hA
        rcases List.mem_append.mp ha with hm | hm
        · obtain ⟨he1, he2, he3, _, _⟩ := numberFrom_mem hm
          obtain ⟨hall, _⟩ := scanSpans_props buf sig.header sig.footer _ hsc
          obtain ⟨_, h2, h3, h4, h5⟩ := hall _ he3
          exact ⟨(name, sig), List.mem_cons_self _ _, he1, he2, h2, h3, h4, h5⟩
        · obtain ⟨e, he, hrest'⟩ := ih hrest a hm
          exact ⟨e, List.mem_cons_of_mem _ he, hrest'⟩

/-- Two consecutive blocks of consecutive numbers form one such block. -/
theorem range'_glue (c m n : Nat) :
    List.range' c m ++ List.range' (c + m) n = List.range' c (m + n) := by
  have h := (List.range'_append c m n 1).symm
  simp only [Nat.one_mul] at h
  rw [Nat.add_comm n m] at h
  exact h.symm

/-- The sequence numbers of the ideal artifact list are consecutive,
starting from the initial counter value. -/
theorem idealFrom_map_seq (buf : List Nat) :
    ∀ (sigs : List (String × Signature)) {c : Nat} {A : List Artifact},
      idealFrom buf sigs c = some A →
      A.map Artifact.seq = List.range' c A.length := by
  intro sigs
  induction sigs with
  | nil =>
    intro c A hA
    obtain rfl : [] = A := by simpa [idealFrom] using hA
    rfl
  | cons e rest ih =>
    obtain ⟨name, sig⟩ := e
    intro c A hA
    rw [idealFrom] at hA
    cases hsc : scanSpans buf sig.header sig.footer (buf.length + 1) 0 with
    | none => rw [hsc] at hA; cases hA
    | some sl =>
      simp only [hsc] at hA
      cases hrest : idealFrom buf rest (c + sl.length) with
      | none => rw [hrest] at hA; simp at hA
      | some A' =>
        simp only [hrest] at hA
        obtain rfl : numberFrom name sig.ext c sl ++ A' = A := by simpa using hA
        rw [List.map_append, numberFrom_map_seq, ih hrest]
        have hl : (numberFrom name sig.ext c sl ++ A').length = sl.length + A'.length := by
          simp [numberFrom_length]
        rw [hl, range'_glue]

/-- Numbering preserves the non-overlap ordering of the spans. -/
theorem numberFrom_pairwise {ft ext : String} :
    ∀ {sl : List (Nat × Nat)} (c : Nat), sl.Pairwise (fun p q => p.2 ≤ q.1) →
      (numberFrom ft ext c sl).Pairwise (fun x y => x.stop ≤ y.headerPos) := by
  intro sl
  induction sl with
  | nil => intro c _; exact List.Pairwise.nil
  | cons p l ih =>
    obtain ⟨x, y⟩ := p
    intro c hpw
    obtain ⟨hhead, htail⟩ := List.pairwise_cons.mp hpw
    refine List.pairwise_cons.mpr ⟨fun b hb => ?_, ih (c + 1) htail⟩
    obtain ⟨_, _, hmem, _, _⟩ := numberFrom_mem hb
    exact hhead (b.headerPos, b.stop) hmem

/-- The ideal artifact list decomposes into per-signature blocks in
registry order, each block carrying its signature's name and listing its
spans in non-overlapping left-to-right order. -/
theorem idealFrom_grouped (buf : List Nat) :
    ∀ (sigs : List (String × Signature)) {c : Nat} {A : List Artifact},
      idealFrom buf sigs c = some A →
      ∃ L : List (List Artifact), A = L.flatten ∧
        List.Forall₂ (fun (e : String × Signature) (l : List Artifact) =>
          (∀ a ∈ l, a.fileType = e.1) ∧
          l.Pairwise (fun x y => x.stop ≤ y.headerPos)) sigs L := by
  intro sigs
  induction sigs with
  | nil =>
    intro c A hA
    obtain rfl : [] = A := by simpa [idealFrom] using hA
    exact ⟨[], rfl, List.Forall₂.nil⟩
  | cons e rest ih =>
    obtain ⟨name, sig⟩ := e
    intro c A hA
    rw [idealFrom] at hA
    cases hsc : scanSpans buf sig.header sig.footer (buf.length + 1) 0 with
    | none => rw [hsc] at hA; cases hA
    | some sl =>
      simp only [hsc] at hA
      cases hrest : idealFrom buf rest (c + sl.length) with
      | none => rw [hrest] at hA; simp at hA
      | some A' =>
        simp only [hrest] at hA
        obtain rfl : numberFrom name sig.ext c sl ++ A' = A := by simpa using hA
        obtain ⟨L, rfl, hL⟩ := ih hrest
        refine ⟨numberFrom name sig.ext c sl :: L, by simp, ?_⟩
        refine List.Forall₂.cons ⟨fun a ha => (numberFrom_mem ha).1, ?_⟩ hL
        exact numberFrom_pairwise c (scanSpans_props buf sig.header sig.footer _ hsc).2

/-- The bytes of a span delimited inside the buffer start with the header
pattern, end with the footer pattern, and cover at least both. -/
theorem artifactData_facts {buf : List Nat} {a : Artifact} {h f : List Nat}
    (h1 : a.headerPos + h.length + f.length ≤ a.stop) (h2 : a.stop ≤ buf.length)
    (h3 : (buf.drop a.headerPos).take h.length = h)
    (h4 : (buf.drop (a.stop - f.length)).take f.length = f) :
    (artifactData buf a).take h.length = h ∧
      (artifactData buf a).drop ((artifactData buf a).length - f.length) = f ∧
      h.length + f.length ≤ (artifactData buf a).length := by
  have hlen : (artifactData buf a).length = a.stop - a.headerPos := by
    rw [artifactData, List.length_take, List.length_drop]
    omega
  refine ⟨?_, ?_, by omega⟩
  · rw [artifactData, List.take_take, min_eq_left (by omega), h3]
  · rw [hlen, artifactData, List.drop_take]
    rw [List.drop_drop]
    have e1 : a.headerPos + (a.stop - a.headerPos - f.length) = a.stop - f.length := by
      omega
    have e2 : a.stop - a.headerPos - (a.stop - a.headerPos - f.length) = f.length := by
      omega
    rw [e1, e2, h4]

/-- C2: `verify_integrity` returns the success value `True` exactly when
both digests were computed successfully (non-`None`, non-empty) under the
same algorithm `HASH_ALGORITHM` and are equal; in every other case (either
hash missing or digests unequal) it does not return `True`. -/
theorem verify_integrity_success_iff (hash : String → String → Option String)
    (original_source image_file : String) :
    verify_integrity hash original_source image_file = true ↔
      ∃ d : String, d ≠ "" ∧ hash HASH_ALGORITHM original_source = some d ∧
        hash HASH_ALGORITHM image_file = some d := by
  constructor
  · intro h
    unfold verify_integrity at h
    cases hs : hash HASH_ALGORITHM original_source with
    | none => rw [hs] at h; simp [pyFalsy] at h
    | some t =>
      cases hi : hash HASH_ALGORITHM image_file with
      | none => rw [hs, hi] at h; simp [pyFalsy] at h
      | some s =>
        rw [hs, hi] at h
        simp only [pyFalsy] at h
        by_cases hc : (s.isEmpty || t.isEmpty) = true
        · rw [if_pos hc] at h; cases h
        · rw [if_neg hc] at h
          have hts : t = s := by
            by_cases he : (some t == some s) = true
            · simpa using he
            · rw [if_neg he] at h; cases h
          obtain rfl := hts
          refine ⟨t, ?_, rfl, rfl⟩
          intro h0
          rw [h0] at hc
          simp at hc
          exact absurd hc (by decide)
  · rintro ⟨d, hd, h1, h2⟩
    unfold verify_integrity
    rw [h1, h2]
    simp [pyFalsy, String.isEmpty_iff, hd]

/-- C1 (counterexample): a hashing failure is reported by the same result
value as a mismatch.  With an oracle whose source-side digest computation
fails, `verify_integrity` returns exactly the value it returns under an
oracle producing two unequal digests — `False` in both cases — so the
hashing-failure outcome is not distinct from the mismatch outcome. -/
theorem verify_integrity_failure_not_distinct :
    verify_integrity hashFailOnSource "src" "img" =
        verify_integrity hashMismatch "src" "img" ∧
      verify_integrity hashFailOnSource "src" "img" = false := by decide

/-- C1 (amended): when computing the digest of either side fails (the hash
oracle yields a falsy value), `verify_integrity` aborts without comparing
and returns `False` — the same result value as a mismatch; the failure is
never reported as success. -/
theorem verify_integrity_hash_failure_returns_false
    (hash : String → String → Option String) (original_source image_file : String)
    (h : pyFalsy (hash HASH_ALGORITHM image_file) = true ∨
      pyFalsy (hash HASH_ALGORITHM original_source) = true) :
    verify_integrity hash original_source image_file = false := by
  simp only [verify_integrity]
  rcases h with h | h <;> simp [h]

/-- Witness for the amended C1 at a concrete oracle: the source-side hash
fails and `verify_integrity` returns `False`. -/
theorem verify_integrity_hash_failure_returns_false_witness :
    pyFalsy (hashFailOnSource HASH_ALGORITHM "src") = true ∧
      verify_integrity hashFailOnSource "src" "img" = false :=
  ⟨by decide,
    verify_integrity_hash_failure_returns_false hashFailOnSource "src" "img"
      (Or.inr (by decide))⟩

/-- C4 (counterexample): the missing-executable outcome is not a distinct
result value.  `perform_forensic_imaging` returns exactly the same pair
`(False, None)` when the executable is absent (`FileNotFoundError`) as when
the child process exits with the non-zero code 1. -/
theorem imaging_toolnotfound_not_distinct :
    perform_forensic_imaging .notFound "forensic_hash.log" =
        perform_forensic_imaging (.proc 1 "dcfldd: error") "forensic_hash.log" ∧
      perform_forensic_imaging .notFound "forensic_hash.log" = (false, none) := by
  decide

/-- C4 (amended): when the executable cannot be located
`perform_forensic_imaging` returns `(False, None)`, the same result value
as for any non-zero child exit code; the two failures are distinguished
only by the diagnostic printed, not by the value reported to the caller. -/
theorem imaging_toolnotfound_same_value (log_path stderrText : String)
    (returncode : Int) (h : returncode ≠ 0) :
    perform_forensic_imaging .notFound log_path = (false, none) ∧
      perform_forensic_imaging (.proc returncode stderrText) log_path = (false, none) := by
  refine ⟨rfl, ?_⟩
  simp [perform_forensic_imaging, h]

/-- Witness for the amended C4 at exit code 1. -/
theorem imaging_toolnotfound_same_value_witness :
    (1 : Int) ≠ 0 ∧
      (perform_forensic_imaging .notFound "log" = (false, none) ∧
        perform_forensic_imaging (.proc 1 "err") "log" = (false, none)) :=
  ⟨by decide, imaging_toolnotfound_same_value "log" "err" 1 (by decide)⟩

/-- C5: on the 13-byte buffer `FF D8 FF E0 ∥ "payload" ∥ FF D9`, carving
with the reference registry produces exactly one artifact, for the JPEG
signature, whose span is `[0, 13)` and whose content is the entire
buffer. -/
theorem carving_scenarioA :
    perform_file_carving FILE_SIGNATURES bufA alwaysOk =
        some (1, [⟨"JPEG", 0, 0, 13, "jpg"⟩]) ∧
      artifactData bufA ⟨"JPEG", 0, 0, 13, "jpg"⟩ = bufA := by decide

/-- C3 (counterexample): a failure carving one signature aborts the whole
run.  On a buffer holding one JPEG span followed by one PDF span, a write
failure on the very first (JPEG) artifact makes `perform_file_carving`
return `0` with nothing written — the PDF signature is never carved — even
though the same run with all writes succeeding carves both spans. -/
theorem carving_write_failure_aborts_run :
    perform_file_carving FILE_SIGNATURES bufJP (fun k => k != 0) = some (0, []) ∧
      perform_file_carving FILE_SIGNATURES bufJP alwaysOk =
        some (2, [⟨"JPEG", 0, 0, 13, "jpg"⟩, ⟨"PDF", 1, 13, 23, "pdf"⟩]) := by decide

/-- C8 (counterexample): `perform_file_carving` does not return the list of
carved artifacts, only the count: two buffers with the same return value
(`1`) produce different artifact lists, so the value returned to the caller
cannot contain the ordered artifact list. -/
theorem carving_return_is_count_only :
    carvingReturn FILE_SIGNATURES bufA alwaysOk =
        carvingReturn FILE_SIGNATURES (0 :: bufA) alwaysOk ∧
      carvedFiles FILE_SIGNATURES bufA alwaysOk ≠
        carvedFiles FILE_SIGNATURES (0 :: bufA) alwaysOk := by decide

/-! ### Output-name uniqueness machinery -/

/-- The code of a decimal digit character round-trips through `Char`. -/
theorem digitChar_toNat {d : Nat} (hd : d < 10) : (Char.ofNat (48 + d)).toNat = 48 + d := by
  interval_cases d <;> decide

/-- Reading a digit appended at the end. -/
theorem decodeDigits_append (xs : List Char) (c : Char) :
    decodeDigits (xs ++ [c]) = 10 * decodeDigits xs + (c.toNat - 48) := by
  simp [decodeDigits, List.foldl_append]

/-- Decoding inverts the decimal rendering. -/
theorem decodeDigits_natChars : ∀ n : Nat, decodeDigits (natChars n) = n := by
  intro n
  induction n using Nat.strong_induction_on with
  | _ n ih =>
    rw [natChars]
    by_cases h : n < 10
    · rw [dif_pos h]
      show decodeDigits [Char.ofNat (48 + n)] = n
      simp only [decodeDigits, List.foldl]
      rw [digitChar_toNat h]
      omega
    · rw [dif_neg h]
      rw [decodeDigits_append, ih (n / 10) (Nat.div_lt_self (by omega) (by omega)),
        digitChar_toNat (Nat.mod_lt n (by omega))]
      omega

/-- The decimal rendering of the sequence counter is injective. -/
theorem natChars_injective {m n : Nat} (h : natChars m = natChars n) : m = n := by
  have h2 := congrArg decodeDigits h
  rwa [decodeDigits_natChars, decodeDigits_natChars] at h2

/-- The characters of an output file name, flattened. -/
theorem outputName_data (a : Artifact) :
    (outputName a).data =
      "carved_".data ++ a.fileType.data ++ "_".data ++ natChars a.seq ++
        ".".data ++ a.ext.data := by
  simp [outputName, String.data_append]

/-- An artifact's signature name and extension come from the reference
registry. -/
theorem registry_pair {e : String × Signature} (he : e ∈ FILE_SIGNATURES) (x : Artifact)
    (h1 : x.fileType = e.1) (h2 : x.ext = e.2.ext) :
    (x.fileType = "JPEG" ∧ x.ext = "jpg") ∨ (x.fileType = "PDF" ∧ x.ext = "pdf") ∨
      (x.fileType = "GIF" ∧ x.ext = "gif") := by
  rw [FILE_SIGNATURES] at he
  rcases List.mem_cons.mp he with rfl | he
  · exact Or.inl ⟨h1, h2⟩
  rcases List.mem_cons.mp he with rfl | he
  · exact Or.inr (Or.inl ⟨h1, h2⟩)
  rcases List.mem_cons.mp he with rfl | he
  · exact Or.inr (Or.inr ⟨h1, h2⟩)
  cases he

/-- Within the reference registry, equal output names force equal sequence
numbers: for equal signature names the decimal counter field must agree,
and distinct signature names produce names differing right after the
`carved_` prefix. -/
theorem outputName_inj_registry {a b : Artifact}
    (ha : (a.fileType = "JPEG" ∧ a.ext = "jpg") ∨ (a.fileType = "PDF" ∧ a.ext = "pdf") ∨
      (a.fileType = "GIF" ∧ a.ext = "gif"))
    (hb : (b.fileType = "JPEG" ∧ b.ext = "jpg") ∨ (b.fileType = "PDF" ∧ b.ext = "pdf") ∨
      (b.fileType = "GIF" ∧ b.ext = "gif"))
    (h : outputName a = outputName b) : a.seq = b.seq := by
  have hd := congrArg String.data h
  rw [outputName_data, outputName_data] at hd
  rcases ha with ⟨h1, h2⟩ | ⟨h1, h2⟩ | ⟨h1, h2⟩ <;>
    rcases hb with ⟨h3, h4⟩ | ⟨h3, h4⟩ | ⟨h3, h4⟩ <;>
      rw [h1, h2, h3, h4] at hd <;>
      simp only [List.append_assoc] at hd <;>
      first
        | exact natChars_injective (List.append_cancel_right
            (List.append_cancel_left (List.append_cancel_left
              (List.append_cancel_left hd))))
        | (have hd1 := List.append_cancel_left hd
           have ht := congrArg (List.take 1) hd1
           rw [List.take_append_of_le_length (by decide),
             List.take_append_of_le_length (by decide)] at ht
           exact absurd ht (by decide))

/-- C9: for every buffer and signature with a non-empty header pattern the
per-signature scan loop terminates: the loop's cursor strictly increases
each iteration, so fuel exceeding the bytes remaining beyond the cursor is
never exhausted and the loop always reaches an exit. -/
theorem carving_scan_terminates (buf h f : List Nat) (ft ext : String)
    (w : Nat → Bool) (hne : h ≠ []) :
    ∀ (fuel : Nat) {offset c : Nat} {acc : List Artifact}, offset ≤ buf.length →
      buf.length < offset + fuel →
      (carveLoop buf h f ft ext w fuel offset c acc).isSome = true := by
  intro fuel
  induction fuel with
  | zero => intro offset c acc h1 h2; exact absurd h2 (by omega)
  | succ n ih =>
    intro offset c acc h1 h2
    rw [carveLoop]
    cases hh : pyFind buf h offset with
    | none => simp [hh]
    | some hp =>
      obtain ⟨hh1, hh2, _⟩ := pyFind_some hh
      have hhl : 0 < h.length := List.length_pos.mpr hne
      cases hf : pyFind buf f (hp + h.length) with
      | none =>
        simp only [hh, hf]
        exact ih (by omega) (by omega)
      | some fp =>
        obtain ⟨hf1, hf2, _⟩ := pyFind_some hf
        simp only [hh, hf]
        by_cases hw : w c = true
        · rw [if_pos hw]
          exact ih (by omega) (by omega)
        · rw [if_neg hw]
          rfl

/-- Witness for C9: the JPEG scan of the scenario-A buffer, at fuel
`bufA.length + 1`, terminates. -/
theorem carving_scan_terminates_witness :
    ([0xFF, 0xD8, 0xFF, 0xE0] : List Nat) ≠ [] ∧ (0 : Nat) ≤ bufA.length ∧
      bufA.length < 0 + 14 ∧
      (carveLoop bufA [0xFF, 0xD8, 0xFF, 0xE0] [0xFF, 0xD9] "JPEG" "jpg" alwaysOk
        14 0 0 []).isSome = true :=
  ⟨by decide, by decide, by decide,
    carving_scan_terminates bufA [0xFF, 0xD8, 0xFF, 0xE0] [0xFF, 0xD9] "JPEG" "jpg"
      alwaysOk (by decide) 14 (by decide) (by decide)⟩

/-- C6: when a header occurrence has no footer occurrence at or after its
end, the loop advances the cursor exactly past that header and resumes,
producing no artifact and no error; in particular the scenario-B buffer (a
JPEG header with no footer after it) carves to zero artifacts. -/
theorem carving_unterminated_header_skipped :
    (∀ (buf h f : List Nat) (ft ext : String) (w : Nat → Bool) (fuel offset c : Nat)
        (acc : List Artifact) (hp : Nat),
      pyFind buf h offset = some hp → pyFind buf f (hp + h.length) = none →
      carveLoop buf h f ft ext w (fuel + 1) offset c acc =
        carveLoop buf h f ft ext w fuel (hp + h.length) c acc) ∧
    perform_file_carving FILE_SIGNATURES bufB alwaysOk = some (0, []) := by
  refine ⟨?_, by decide⟩
  intro buf h f ft ext w fuel offset c acc hp hh hf
  rw [carveLoop]
  simp only [hh, hf]

/-- Witness for C6 at the scenario-B buffer: the JPEG header is found at 0,
no footer follows, and one loop step just moves the cursor to 4. -/
theorem carving_unterminated_header_skipped_witness :
    pyFind bufB [0xFF, 0xD8, 0xFF, 0xE0] 0 = some 0 ∧
      pyFind bufB [0xFF, 0xD9] 4 = none ∧
      carveLoop bufB [0xFF, 0xD8, 0xFF, 0xE0] [0xFF, 0xD9] "JPEG" "jpg" alwaysOk 2 0 0 [] =
        carveLoop bufB [0xFF, 0xD8, 0xFF, 0xE0] [0xFF, 0xD9] "JPEG" "jpg" alwaysOk 1 4 0 [] :=
  ⟨by decide, by decide,
    carving_unterminated_header_skipped.1 bufB [0xFF, 0xD8, 0xFF, 0xE0] [0xFF, 0xD9]
      "JPEG" "jpg" alwaysOk 1 0 0 [] 0 (by decide) (by decide)⟩

/-- C3 (amended): a write failure while carving one signature aborts the
entire run — the remaining signatures are not scanned and the function
returns `0`; the artifacts written before the failure persist unchanged
(they are exactly the corresponding prefix of the fault-free run's
artifact list). -/
theorem carving_failure_aborts_and_keeps_prefix (sigs : List (String × Signature))
    (buf : List Nat) (w : Nat → Bool) (n k : Nat) (A : List Artifact)
    (hok : perform_file_carving sigs buf alwaysOk = some (n, A))
    (hk : k < A.length) (hbefore : ∀ i, i < k → w i = true) (hfail : w k = false) :
    perform_file_carving sigs buf w = some (0, A.take k) := by
  rw [perform_file_carving_alwaysOk] at hok
  cases hI : idealFrom buf sigs 0 with
  | none => rw [hI] at hok; cases hok
  | some A0 =>
    rw [hI] at hok
    simp only [Option.map_some', Option.some.injEq, Prod.mk.injEq] at hok
    obtain ⟨-, rfl⟩ := hok
    have hff : firstFail w 0 A0.length = some k :=
      firstFail_eq_some w k hk (fun i hi => by simpa using hbefore i hi)
        (by simpa using hfail)
    rw [perform_file_carving, carveAll_eq_idealFrom buf w sigs hI]
    simp [hff]

/-- Witness for the amended C3: on the JPEG-then-PDF buffer, failing the
write of artifact 0 aborts with return value 0 and nothing written. -/
theorem carving_failure_aborts_and_keeps_prefix_witness :
    perform_file_carving FILE_SIGNATURES bufJP alwaysOk =
        some (2, [⟨"JPEG", 0, 0, 13, "jpg"⟩, ⟨"PDF", 1, 13, 23, "pdf"⟩]) ∧
      perform_file_carving FILE_SIGNATURES bufJP (fun i => decide (1 ≤ i)) =
        some (0, []) :=
  ⟨by decide,
    carving_failure_aborts_and_keeps_prefix FILE_SIGNATURES bufJP
      (fun i => decide (1 ≤ i)) 2 0
      [⟨"JPEG", 0, 0, 13, "jpg"⟩, ⟨"PDF", 1, 13, 23, "pdf"⟩] (by decide) (by decide)
      (fun i hi => absurd hi (Nat.not_lt_zero i)) (by decide)⟩

/-- C10: every artifact a fault-free carving run produces is delimited by
its signature: its bytes begin with the registered header pattern, end with
the registered footer pattern, and its length is at least the sum of the
two pattern lengths. -/
theorem carved_artifacts_delimited (sigs : List (String × Signature)) (buf : List Nat)
    (n : Nat) (A : List Artifact)
    (hrun : perform_file_carving sigs buf alwaysOk = some (n, A)) :
    ∀ a ∈ A, ∃ e ∈ sigs, a.fileType = e.1 ∧ a.ext = e.2.ext ∧
      (artifactData buf a).take e.2.header.length = e.2.header ∧
      (artifactData buf a).drop ((artifactData buf a).length - e.2.footer.length) =
        e.2.footer ∧
      e.2.header.length + e.2.footer.length ≤ (artifactData buf a).length := by
  rw [perform_file_carving_alwaysOk] at hrun
  cases hI : idealFrom buf sigs 0 with
  | none => rw [hI] at hrun; cases hrun
  | some A0 =>
    rw [hI] at hrun
    simp only [Option.map_some', Option.some.injEq, Prod.mk.injEq] at hrun
    obtain ⟨-, rfl⟩ := hrun
    intro a ha
    obtain ⟨e, he, he1, he2, he3, he4, he5, he6⟩ := idealFrom_mem buf sigs hI a ha
    obtain ⟨d1, d2, d3⟩ := artifactData_facts he3 he4 he5 he6
    exact ⟨e, he, he1, he2, d1, d2, d3⟩

/-- Witness for C10 at the scenario-A run. -/
theorem carved_artifacts_delimited_witness :
    perform_file_carving FILE_SIGNATURES bufA alwaysOk =
        some (1, [⟨"JPEG", 0, 0, 13, "jpg"⟩]) ∧
      ∀ a ∈ ([⟨"JPEG", 0, 0, 13, "jpg"⟩] : List Artifact),
        ∃ e ∈ FILE_SIGNATURES, a.fileType = e.1 ∧ a.ext = e.2.ext ∧
          (artifactData bufA a).take e.2.header.length = e.2.header ∧
          (artifactData bufA a).drop ((artifactData bufA a).length - e.2.footer.length) =
            e.2.footer ∧
          e.2.header.length + e.2.footer.length ≤ (artifactData bufA a).length :=
  ⟨by decide,
    carved_artifacts_delimited FILE_SIGNATURES bufA 1 [⟨"JPEG", 0, 0, 13, "jpg"⟩]
      (by decide)⟩

/-- C8 (amended): `perform_file_carving` returns as its value only the
total count (equal to the number of artifacts written); the ordered
artifact list is realised as the written files, grouped per signature in
registry order with each group's spans in non-overlapping left-to-right
order; the scenario-C buffer (two back-to-back JPEG spans) carves to
exactly 2 artifacts in left-to-right order. -/
theorem carving_count_and_discovery_order :
    (∀ (sigs : List (String × Signature)) (buf : List Nat) (n : Nat) (A : List Artifact),
      perform_file_carving sigs buf alwaysOk = some (n, A) →
      n = A.length ∧
        ∃ L : List (List Artifact), A = L.flatten ∧
          List.Forall₂ (fun (e : String × Signature) (l : List Artifact) =>
            (∀ a ∈ l, a.fileType = e.1) ∧
            l.Pairwise (fun x y => x.stop ≤ y.headerPos)) sigs L) ∧
    perform_file_carving FILE_SIGNATURES bufC alwaysOk =
      some (2, [⟨"JPEG", 0, 0, 13, "jpg"⟩, ⟨"JPEG", 1, 13, 26, "jpg"⟩]) := by
  refine ⟨?_, by decide⟩
  intro sigs buf n A hrun
  rw [perform_file_carving_alwaysOk] at hrun
  cases hI : idealFrom buf sigs 0 with
  | none => rw [hI] at hrun; cases hrun
  | some A0 =>
    rw [hI] at hrun
    simp only [Option.map_some', Option.some.injEq, Prod.mk.injEq] at hrun
    obtain ⟨hn, rfl⟩ := hrun
    exact ⟨hn.symm, idealFrom_grouped buf sigs hI⟩

/-- Witness for the amended C8 at the scenario-A run. -/
theorem carving_count_and_discovery_order_witness :
    perform_file_carving FILE_SIGNATURES bufA alwaysOk =
        some (1, [⟨"JPEG", 0, 0, 13, "jpg"⟩]) ∧
      (1 = ([⟨("JPEG" : String), 0, 0, 13, ("jpg" : String)⟩] : List Artifact).length ∧
        ∃ L : List (List Artifact),
          ([⟨"JPEG", 0, 0, 13, "jpg"⟩] : List Artifact) = L.flatten ∧
          List.Forall₂ (fun (e : String × Signature) (l : List Artifact) =>
            (∀ a ∈ l, a.fileType = e.1) ∧
            l.Pairwise (fun x y => x.stop ≤ y.headerPos)) FILE_SIGNATURES L) :=
  ⟨by decide,
    carving_count_and_discovery_order.1 FILE_SIGNATURES bufA 1
      [⟨"JPEG", 0, 0, 13, "jpg"⟩] (by decide)⟩

/-- C7: in one fault-free carving run over the reference registry, the
artifacts' sequence numbers are drawn consecutively (0, 1, ...) from one
counter shared across all signatures, and the resulting output file names
`carved_<signatureName>_<sequence>.<ext>` are pairwise distinct. -/
theorem carved_output_paths_unique (buf : List Nat) (n : Nat) (A : List Artifact)
    (hrun : perform_file_carving FILE_SIGNATURES buf alwaysOk = some (n, A)) :
    A.map Artifact.seq = List.range A.length ∧ (A.map outputName).Nodup := by
  rw [perform_file_carving_alwaysOk] at hrun
  cases hI : idealFrom buf FILE_SIGNATURES 0 with
  | none => rw [hI] at hrun; cases hrun
  | some A0 =>
    rw [hI] at hrun
    simp only [Option.map_some', Option.some.injEq, Prod.mk.injEq] at hrun
    obtain ⟨-, rfl⟩ := hrun
    have hseq : A0.map Artifact.seq = List.range' 0 A0.length :=
      idealFrom_map_seq buf FILE_SIGNATURES hI
    have hnod : (A0.map Artifact.seq).Nodup := by
      rw [hseq]
      exact List.nodup_range' _ _
    refine ⟨by rw [hseq, List.range_eq_range'], ?_⟩
    refine List.Nodup.map_on ?_ (hnod.of_map)
    intro x hx y hy hxy
    obtain ⟨ex, hex, hx1, hx2, -⟩ := idealFrom_mem buf FILE_SIGNATURES hI x hx
    obtain ⟨ey, hey, hy1, hy2, -⟩ := idealFrom_mem buf FILE_SIGNATURES hI y hy
    have hxp := registry_pair hex x hx1 hx2
    have hyp := registry_pair hey y hy1 hy2
    exact List.inj_on_of_nodup_map hnod hx hy (outputName_inj_registry hxp hyp hxy)

/-- Witness for C7 at the JPEG-then-PDF run: two artifacts, sequence
numbers `[0, 1]`, distinct output names. -/
theorem carved_output_paths_unique_witness :
    perform_file_carving FILE_SIGNATURES bufJP alwaysOk =
        some (2, [⟨"JPEG", 0, 0, 13, "jpg"⟩, ⟨"PDF", 1, 13, 23, "pdf"⟩]) ∧
      (([⟨"JPEG", 0, 0, 13, "jpg"⟩, ⟨"PDF", 1, 13, 23, "pdf"⟩] : List Artifact).map
          Artifact.seq =
        List.range ([⟨"JPEG", 0, 0, 13, "jpg"⟩, ⟨"PDF", 1, 13, 23, "pdf"⟩] :
          List Artifact).length ∧
        (([⟨"JPEG", 0, 0, 13, "jpg"⟩, ⟨"PDF", 1, 13, 23, "pdf"⟩] : List Artifact).map
          outputName).Nodup) :=
  ⟨by decide,
    carved_output_paths_unique bufJP 2
      [⟨"JPEG", 0, 0, 13, "jpg"⟩, ⟨"PDF", 1, 13, 23, "pdf"⟩] (by decide)⟩

end Forensics
